import Mathlib

/-!
Verification of the locale-resolution and routing subsystem of the
next-intl tutorial repository.  The repository's own code provides the
configuration data (supported locales, default locale, pathnames table,
middleware matcher patterns, `getRequestConfig`'s fallback and its
message-loading branches); the algorithms that consume that configuration
(request-locale resolution, path translation, message lookup, the
locale-prefix middleware) live in the next-intl library and are
modelled here from the specification's component design.
-/

namespace LocaleSpec

/-- From `src/i18n/routing.ts`: `locales: ['en', 'de', 'pl']`. -/
def supported : List String := ["en", "de", "pl"]

/-- From `src/i18n/routing.ts`: `defaultLocale: 'en'`. -/
def defaultLocale : String := "en"

/-- Modelled from the spec: helper for the Request Locale Resolver's
priority chain.  Returns the first candidate in the list that is present
and a member of `supported`; if none qualifies, returns `defaultLocale`. -/
def firstSupported : List (Option String) → String
  | [] => defaultLocale
  | none :: rest => firstSupported rest
  | some x :: rest => if supported.contains x then x else firstSupported rest

/-- Modelled from the spec: the Request Locale Resolver (§4.1), which is
implemented inside next-intl and is not part of the repository source.
`resolve(pathLocaleSegment, storedPreference, acceptLanguageHint)` tries
the path segment, then the stored preference, then the accept-language
hint, and falls back to the default locale. -/
def resolve (p s h : Option String) : String :=
  firstSupported [p, s, h]

theorem firstSupported_mem (xs : List (Option String)) :
    supported.contains (firstSupported xs) = true := by
  induction xs with
  | nil => decide
  | cons x rest ih =>
    cases x with
    | none => simpa [firstSupported] using ih
    | some v =>
      simp only [firstSupported]
      by_cases hv : supported.contains v = true
      · rw [if_pos hv]; exact hv
      · rw [if_neg hv]; exact ih

/-- Whether an optional locale candidate is present and supported. -/
def candOk : Option String → Bool
  | some x => supported.contains x
  | none => false

theorem firstSupported_skip (x : Option String) (rest : List (Option String))
    (hx : candOk x = false) : firstSupported (x :: rest) = firstSupported rest := by
  cases x with
  | none => rfl
  | some v => simp only [candOk] at hx; simp only [firstSupported, hx]; rw [if_neg]; simp [hx]

theorem firstSupported_hit (x : String) (rest : List (Option String))
    (hx : supported.contains x = true) : firstSupported (some x :: rest) = x := by
  simp only [firstSupported]
  rw [if_pos hx]

/-- Claim C1: for every LocaleId not in the supported set, `resolve` with
that value as the path locale segment ignores it and falls through, in
priority order, to the stored preference, then the accept-language hint,
then the default locale: `resolve p s h` returns `p` if `p` is present and
supported, else `s` if `s` is present and supported, else `h` if `h` maps
to a supported locale, else the default. -/
theorem resolve_priority_order :
    (∀ (x : String) (s h : Option String), supported.contains x = true →
      resolve (some x) s h = x)
    ∧ (∀ (p : Option String) (y : String) (h : Option String),
        candOk p = false → supported.contains y = true →
        resolve p (some y) h = y)
    ∧ (∀ (p s : Option String) (z : String),
        candOk p = false → candOk s = false → supported.contains z = true →
        resolve p s (some z) = z)
    ∧ (∀ (p s h : Option String),
        candOk p = false → candOk s = false → candOk h = false →
        resolve p s h = defaultLocale) := by
  refine ⟨?_, ?_, ?_, ?_⟩
  · intro x s h hx
    exact firstSupported_hit x [s, h] hx
  · intro p y h hp hy
    rw [resolve, firstSupported_skip p _ hp]
    exact firstSupported_hit y [h] hy
  · intro p s z hp hs hz
    rw [resolve, firstSupported_skip p _ hp, firstSupported_skip s _ hs]
    exact firstSupported_hit z [] hz
  · intro p s h hp hs hh
    rw [resolve, firstSupported_skip p _ hp, firstSupported_skip s _ hs,
      firstSupported_skip h _ hh]
    rfl

theorem resolve_priority_order_witness :
    (supported.contains "de" = true ∧ resolve (some "de") (some "pl") none = "de")
    ∧ (candOk (some "fr") = false ∧ supported.contains "pl" = true ∧
        resolve (some "fr") (some "pl") none = "pl")
    ∧ (candOk none = false ∧ candOk (some "it") = false ∧
        supported.contains "de" = true ∧ resolve none (some "it") (some "de") = "de")
    ∧ (candOk (some "fr") = false ∧ candOk none = false ∧ candOk (some "xx") = false ∧
        resolve (some "fr") none (some "xx") = defaultLocale) :=
  ⟨⟨by decide, resolve_priority_order.1 "de" (some "pl") none (by decide)⟩,
   ⟨by decide, by decide,
    resolve_priority_order.2.1 (some "fr") "pl" none (by decide) (by decide)⟩,
   ⟨by decide, by decide, by decide,
    resolve_priority_order.2.2.1 none (some "it") "de" (by decide) (by decide) (by decide)⟩,
   ⟨by decide, by decide, by decide,
    resolve_priority_order.2.2.2 (some "fr") none (some "xx")
      (by decide) (by decide) (by decide)⟩⟩

/-- Claim C2: for every combination of inputs — any path locale segment,
any stored preference, any accept-language hint, including all-absent and
all-unsupported — `resolve` terminates and returns a member of the
supported set; it never returns a string outside that set. -/
theorem resolve_total_supported (p s h : Option String) :
    supported.contains (resolve p s h) = true :=
  firstSupported_mem [p, s, h]

/-! ## Path Translator -/

/-- An entry of the pathnames table from `src/i18n/routing.ts`: a route's
value is either a single string used for every locale (`'/': '/'`) or a
per-locale mapping (`'/projects': \x7b en: ..., de: ..., pl: ... \x7d`). -/
inductive PathEntry where
  | same (s : String)
  | perLocale (m : List (String × String))
deriving DecidableEq, Repr

/-- From `src/i18n/routing.ts`: the `pathnames` table
`\x7b '/': '/', '/projects': \x7b en: '/projects', de: '/projekte', pl: '/realizacje' \x7d \x7d`. -/
def pathnames : List (String × PathEntry) :=
  [("/", .same "/"),
   ("/projects", .perLocale [("en", "/projects"), ("de", "/projekte"), ("pl", "/realizacje")])]

/-- Look up a logical route in a pathnames table. -/
def lookupRoute (t : List (String × PathEntry)) (r : String) : Option PathEntry :=
  (t.find? (fun e => e.1 == r)).map (·.2)

/-- Look up a locale in a per-route mapping. -/
def lookupLocale (m : List (String × String)) (l : String) : Option String :=
  (m.find? (fun e => e.1 == l)).map (·.2)

/-- Modelled from the spec: the Path Translator `toPath` (§4.3), which is
implemented inside next-intl (`getPathname`/`Link`) and is not part of the
repository source; the table it consumes is `pathnames` above.  Look up the
logical route; if absent, return the route unchanged.  If present as a
single string, that string is the concrete path for every locale.  If
present as a per-locale mapping, look up the locale; if absent for that
specific locale, fall back to the logical route string itself. -/
def toPath (t : List (String × PathEntry)) (r l : String) : String :=
  match lookupRoute t r with
  | none => r
  | some (.same s) => s
  | some (.perLocale m) =>
    match lookupLocale m l with
    | none => r
    | some s => s

/-- The (route, locale) pairs explicitly present in a pathnames table:
one pair per per-locale entry. -/
def tablePairs (t : List (String × PathEntry)) : List (String × String) :=
  t.foldr (fun e acc =>
    (match e.2 with
     | .same _ => []
     | .perLocale m => m.map (fun x => (e.1, x.1))) ++ acc) []

/-- Modelled from the spec: the inverse `fromPath` (§4.3), scanning the
table for a route and locale whose concrete path matches, routes in table
order and locales in `supported` order. -/
def fromPath (t : List (String × PathEntry)) (cp : String) : Option (String × String) :=
  (t.foldr (fun e acc => supported.map (fun l => (e.1, l)) ++ acc) []).find?
    (fun rl => toPath t rl.1 rl.2 == cp)

/-- Claim C4: for every (logicalRoute, locale) pair present in the
pathnames table, `fromPath (toPath r l) = (r, l)`: translating a route to
its concrete locale-specific path and inverting recovers exactly the
original route and locale. -/
theorem toPath_fromPath_roundtrip (r l : String)
    (h : (r, l) ∈ tablePairs pathnames) :
    fromPath pathnames (toPath pathnames r l) = some (r, l) := by
  have hcases : (r = "/projects" ∧ l = "en") ∨ (r = "/projects" ∧ l = "de")
      ∨ (r = "/projects" ∧ l = "pl") := by
    simpa [tablePairs, pathnames, Prod.ext_iff] using h
  rcases hcases with ⟨hr, hl⟩ | ⟨hr, hl⟩ | ⟨hr, hl⟩ <;> subst hr <;> subst hl <;> decide

theorem toPath_fromPath_roundtrip_witness :
    ("/projects", "de") ∈ tablePairs pathnames ∧
      fromPath pathnames (toPath pathnames "/projects" "de") = some ("/projects", "de") :=
  ⟨by decide, toPath_fromPath_roundtrip "/projects" "de" (by decide)⟩

/-- Claim C5: for every locale and every logical route absent from the
table, `toPath` returns the route string unchanged; and for a route
present in the table whose per-route mapping lacks an entry for the given
locale, `toPath` falls back to the logical route string itself (two-level
fallback: route-level, then locale-level). -/
theorem toPath_fallback :
    (∀ (t : List (String × PathEntry)) (r l : String),
      lookupRoute t r = none → toPath t r l = r)
    ∧ (∀ (t : List (String × PathEntry)) (r l : String) (m : List (String × String)),
      lookupRoute t r = some (.perLocale m) → lookupLocale m l = none →
      toPath t r l = r) := by
  constructor
  · intro t r l h
    simp [toPath, h]
  · intro t r l m hr hl
    simp [toPath, hr, hl]

theorem toPath_fallback_witness :
    (lookupRoute pathnames "/about" = none ∧ toPath pathnames "/about" "de" = "/about")
    ∧ (lookupRoute pathnames "/projects"
        = some (.perLocale [("en", "/projects"), ("de", "/projekte"), ("pl", "/realizacje")])
      ∧ lookupLocale [("en", "/projects"), ("de", "/projekte"), ("pl", "/realizacje")] "fr" = none
      ∧ toPath pathnames "/projects" "fr" = "/projects") :=
  ⟨⟨by decide, toPath_fallback.1 pathnames "/about" "de" (by decide)⟩,
   ⟨by decide, by decide,
    toPath_fallback.2 pathnames "/projects" "fr"
      [("en", "/projects"), ("de", "/projekte"), ("pl", "/realizacje")]
      (by decide) (by decide)⟩⟩

/-- Claim C6: with the pathnames entry
`'/projects': \x7b en: '/projects', de: '/projekte', pl: '/realizacje' \x7d`,
`toPath "/projects" "de"` returns exactly `"/projekte"`. -/
theorem toPath_projects_de : toPath pathnames "/projects" "de" = "/projekte" := by
  decide

/-! ## Message bundles and lookup -/

/-- A translation bundle: a mapping from namespace to a mapping from
message key to template string, as in the repository's `messages/*.json`. -/
def Bundle := List (String × List (String × String))

instance : DecidableEq Bundle := by
  unfold Bundle
  infer_instance

/-- From `messages/en.json` in the tutorial's Key Features section:
`\x7b "Blog": \x7b "title": "Latest News & Updates", "read_more": "Read more" \x7d \x7d`. -/
def bundleEnBlog : Bundle :=
  [("Blog", [("title", "Latest News & Updates"), ("read_more", "Read more")])]

/-- Case-sensitive exact lookup of `namespace.key` in a bundle. -/
def msgLookup (b : Bundle) (ns key : String) : Option String :=
  ((b.find? (fun e => e.1 == ns)).map (·.2)).bind
    (fun m => (m.find? (fun e => e.1 == key)).map (·.2))

/-- Modelled from the spec: the message lookup `translate` (§4.2), which is
implemented inside next-intl (`useTranslations`) and is not part of the
repository source.  Looks up `namespace.key` with case-sensitive exact
matching; on a miss it degrades by returning the key path as a visible
placeholder string instead of throwing. -/
def translate (b : Bundle) (ns key : String) : String :=
  match msgLookup b ns key with
  | some s => s
  | none => ns ++ "." ++ key

/-- Claim C8: for every bundle, namespace and key such that
`namespace.key` is absent from the bundle (case-sensitive exact match),
`translate` does not throw: it degrades by returning the key path as a
visible placeholder string. -/
theorem translate_missing_key (b : Bundle) (ns key : String)
    (h : msgLookup b ns key = none) :
    translate b ns key = ns ++ "." ++ key := by
  simp [translate, h]

theorem translate_missing_key_witness :
    msgLookup bundleEnBlog "Blog" "missing_key" = none ∧
      translate bundleEnBlog "Blog" "missing_key" = "Blog" ++ "." ++ "missing_key" :=
  ⟨by decide, translate_missing_key bundleEnBlog "Blog" "missing_key" (by decide)⟩

/-! ## Request configuration (`src/i18n/request.ts`) -/

/-- From `src/i18n/request.ts`: the locale fallback inside
`getRequestConfig` — use the awaited `requestLocale` unless it is absent
or not in `routing.locales`, in which case use `routing.defaultLocale`. -/
def requestConfigLocale (requestLocale : Option String) : String :=
  match requestLocale with
  | some l => if supported.contains l then l else defaultLocale
  | none => defaultLocale

/-- A static model of the `messages/` directory: module specifiers paired
with their bundles. -/
def FileSystem := List (String × Bundle)

/-- Resolve a module specifier against the file system, as a dynamic
`import(...)` would. -/
def loadModule (fs : FileSystem) (name : String) : Option Bundle :=
  (fs.find? (fun e => e.1 == name)).map (·.2)

/-- From `src/i18n/request.ts`: the special-cased import expression —
for `'en'` statically import `'../../messages/en.json'`, otherwise import
the template `'../../messages/' ++ locale ++ '.json'`. -/
def messagesSpecialCase (fs : FileSystem) (locale : String) : Option Bundle :=
  if locale == "en" then loadModule fs "../../messages/en.json"
  else loadModule fs ("../../messages/" ++ locale ++ ".json")

/-- The uniform template import `'../../messages/' ++ locale ++ '.json'`
applied to every locale, with no special case. -/
def messagesGeneric (fs : FileSystem) (locale : String) : Option Bundle :=
  loadModule fs ("../../messages/" ++ locale ++ ".json")

/-- Claim C10: the special-case branch that statically imports
`../../messages/en.json` when the resolved locale is `'en'` yields a
messages object content-equal to the one the generic template import
would yield for `'en'`; the two branches are behaviorally equivalent, so
for every resolved locale the returned messages are exactly those of
`messages/<locale>.json`. -/
theorem messages_special_case_equiv (fs : FileSystem) (locale : String) :
    messagesSpecialCase fs locale = messagesGeneric fs locale := by
  by_cases h : locale = "en"
  · subst h
    rfl
  · have hb : (locale == "en") = false := by
      simpa using h
    simp [messagesSpecialCase, messagesGeneric, hb]

/-! ## Locale-prefix middleware (`src/middleware.ts`) -/

/-- A request path, as a character sequence. -/
abbrev Path := List Char

/-- The root path `/`. -/
def rootPath : Path := ['/']

/-- The supported locales as character sequences, in the order they
appear in `src/i18n/routing.ts`. -/
def localeChars : List (List Char) :=
  [['e', 'n'], ['d', 'e'], ['p', 'l']]

/-- Whether a path begins with the given locale as a whole first segment:
it is exactly `/<locale>` or begins with `/<locale>/`, as the matcher
pattern `'/(pl|de|en)/:path*'` of `src/middleware.ts` recognises. -/
def localeSegMatch (l : List Char) (p : Path) : Bool :=
  (p == '/' :: l) || (('/' :: l ++ ['/']).isPrefixOf p)

/-- The supported locale segment a path begins with, if any. -/
def localeSegOf (p : Path) : Option (List Char) :=
  localeChars.find? (fun l => localeSegMatch l p)

/-- Whether a path begins with some supported locale segment. -/
def hasLocaleSeg (p : Path) : Bool :=
  (localeSegOf p).isSome

/-- From `src/middleware.ts`: the third matcher pattern
`'/((?!_next|_vercel|.*\x5c..*).*)'` — a path `/X` matches when `X` does
not begin with `_next` or `_vercel` and contains no dot. -/
def generalMatch : Path → Bool
  | '/' :: rest =>
    !(['_', 'n', 'e', 'x', 't'].isPrefixOf rest)
      && !(['_', 'v', 'e', 'r', 'c', 'e', 'l'].isPrefixOf rest)
      && !(rest.contains '.')
  | _ => false

/-- From `src/middleware.ts`: `config.matcher` — the middleware runs on a
request exactly when its path matches `'/'`, `'/(pl|de|en)/:path*'`, or
`'/((?!_next|_vercel|.*\x5c..*).*)'`. -/
def matcherHit (p : Path) : Bool :=
  (p == rootPath) || hasLocaleSeg p || generalMatch p

/-- A middleware response: an HTTP redirect with a status and a target
path, or a pass-through leaving the request path unchanged. -/
inductive Response where
  | redirect (status : Nat) (target : Path)
  | passThrough
deriving DecidableEq, Repr

/-- The outcome of running the middleware on one request: the response
and the client-side locale preference after the request. -/
structure RouterOut where
  resp : Response
  pref : Option String
deriving DecidableEq, Repr

/-- Modelled from the spec: the Locale-Prefix Router state machine (§4.4),
implemented inside next-intl's `createMiddleware` and not part of the
repository source; the matcher it is gated by is `matcherHit` above, taken
from `src/middleware.ts`.  Inputs: the request path, the stored locale
preference, and the accept-language hint.  Excluded paths pass through
with the preference untouched; the root redirects (302) to `/<locale>`;
a locale-prefixed path passes through and updates the preference; any
other matched path redirects (302) to `/<locale><originalPath>`.  The
exclusion predicate is evaluated before locale-prefix detection. -/
def router (p : Path) (s h : Option String) : RouterOut :=
  if matcherHit p = false then
    ⟨.passThrough, s⟩
  else if p == rootPath then
    ⟨.redirect 302 ('/' :: (resolve none s h).data), some (resolve none s h)⟩
  else
    match localeSegOf p with
    | some lc => ⟨.passThrough, some (String.mk lc)⟩
    | none =>
      ⟨.redirect 302 ('/' :: (resolve none s h).data ++ p), some (resolve none s h)⟩

/-- Spec state Unprefixed-Root: the path is exactly `/`. -/
def stateRoot (p : Path) : Prop := p = rootPath

/-- Spec state Prefixed: the path begins with a supported locale segment. -/
def statePrefixed (p : Path) : Prop := hasLocaleSeg p = true

/-- Spec state Excluded: the path matches no matcher pattern, so the
middleware never runs on it. -/
def stateExcluded (p : Path) : Prop := matcherHit p = false

/-- Spec state Unprefixed-Other: a matched path that is not the root and
carries no supported locale segment. -/
def stateOther (p : Path) : Prop :=
  p ≠ rootPath ∧ hasLocaleSeg p = false ∧ matcherHit p = true

theorem isPrefixOf_append_self (xs ys : List Char) :
    xs.isPrefixOf (xs ++ ys) = true := by
  induction xs with
  | nil => simp [List.isPrefixOf]
  | cons a as ih => simp [List.isPrefixOf, ih]

theorem contains_supported_cases (x : String)
    (hx : supported.contains x = true) : x = "en" ∨ x = "de" ∨ x = "pl" := by
  have hmem : x ∈ supported := by simpa using hx
  simpa [supported] using hmem

theorem hasLocaleSeg_of (l : List Char) (q : Path) (hl : l ∈ localeChars)
    (h : localeSegMatch l q = true) : hasLocaleSeg q = true := by
  rw [hasLocaleSeg, localeSegOf, List.find?_isSome]
  exact ⟨l, hl, h⟩

theorem localeSegMatch_exact (l : List Char) : localeSegMatch l ('/' :: l) = true := by
  simp [localeSegMatch]

theorem localeSegMatch_append (l rest : List Char) :
    localeSegMatch l ('/' :: (l ++ '/' :: rest)) = true := by
  have h : ('/' :: l ++ ['/']) ++ rest = '/' :: (l ++ '/' :: rest) := by simp
  rw [localeSegMatch, ← h, isPrefixOf_append_self]
  simp

theorem hasLocaleSeg_matcherHit (p : Path) (h : hasLocaleSeg p = true) :
    matcherHit p = true := by
  simp [matcherHit, h]

theorem generalMatch_shape (p : Path) (hp : generalMatch p = true) :
    ∃ rest, p = '/' :: rest := by
  unfold generalMatch at hp
  split at hp
  · next rest => exact ⟨rest, rfl⟩
  · exact absurd hp (by simp)

theorem router_seg_passThrough (q : Path) (s2 h2 : Option String)
    (hq : (q == rootPath) = false) (hseg : hasLocaleSeg q = true) :
    (router q s2 h2).resp = Response.passThrough := by
  have hm : matcherHit q = true := hasLocaleSeg_matcherHit q hseg
  rcases Option.isSome_iff_exists.mp (by rw [hasLocaleSeg] at hseg; exact hseg) with ⟨lc, hlc⟩
  simp [router, hm, hq, hlc]

theorem resolve_concrete_cases (s h : Option String) :
    resolve none s h = "en" ∨ resolve none s h = "de" ∨ resolve none s h = "pl" :=
  contains_supported_cases _ (firstSupported_mem [none, s, h])

theorem locale_data_mem (l : String) (hl : l = "en" ∨ l = "de" ∨ l = "pl") :
    l.data ∈ localeChars := by
  rcases hl with rfl | rfl | rfl <;> decide

/-- The redirect targets the router can emit always begin with a supported
locale segment. -/
theorem redirect_target_seg (p : Path) (s h : Option String) (st : Nat) (q : Path)
    (hred : (router p s h).resp = Response.redirect st q) :
    hasLocaleSeg q = true ∧ (q == rootPath) = false := by
  unfold router at hred
  by_cases hm : matcherHit p = false
  · rw [if_pos hm] at hred
    exact absurd hred (by simp)
  · rw [if_neg hm] at hred
    have hm' : matcherHit p = true := by
      cases hmp : matcherHit p
      · exact absurd hmp hm
      · rfl
    by_cases hr : (p == rootPath) = true
    · rw [if_pos hr] at hred
      simp only [RouterOut.mk.injEq] at hred
      have hq : q = '/' :: (resolve none s h).data := by
        cases hred
        rfl
      subst hq
      rcases resolve_concrete_cases s h with hc | hc | hc <;> rw [hc] <;> exact ⟨by decide, by decide⟩
    · rw [if_neg (by simpa using hr)] at hred
      cases hlc : localeSegOf p with
      | some lc => rw [hlc] at hred; exact absurd hred (by simp)
      | none =>
        rw [hlc] at hred
        have hq : q = '/' :: (resolve none s h).data ++ p := by
          cases hred
          rfl
        -- in this branch the path was matched by the general pattern
        have hseg : hasLocaleSeg p = false := by
          rw [hasLocaleSeg, hlc]
          rfl
        have hgm : generalMatch p = true := by
          rw [matcherHit, hseg] at hm'
          simp only [Bool.or_eq_true, Bool.false_eq_true, or_false, false_or] at hm'
          rcases hm' with hm' | hm'
          · exact absurd hm' (by simpa using hr)
          · exact hm'
        rcases generalMatch_shape p hgm with ⟨rest, hrest⟩
        subst hrest
        subst hq
        rcases resolve_concrete_cases s h with hc | hc | hc <;> rw [hc]
        · exact ⟨hasLocaleSeg_of ("en".data) _ (by decide)
              (by rw [List.cons_append]; exact localeSegMatch_append _ rest),
            by simp [rootPath]⟩
        · exact ⟨hasLocaleSeg_of ("de".data) _ (by decide)
              (by rw [List.cons_append]; exact localeSegMatch_append _ rest),
            by simp [rootPath]⟩
        · exact ⟨hasLocaleSeg_of ("pl".data) _ (by decide)
              (by rw [List.cons_append]; exact localeSegMatch_append _ rest),
            by simp [rootPath]⟩

/-- Claim C3: for every incoming request path, exactly one of the four
router states (Unprefixed-Root, Prefixed, Unprefixed-Other, Excluded)
applies; the exclusion predicate is evaluated before locale-prefix
detection (the router's first test is `matcherHit`); and the router's
response is exactly one of redirect or pass-through, reached in a single
step: any redirect it emits targets a path on which the router passes
through, so no multi-hop redirect chains arise. -/
theorem router_state_machine :
    (∀ p : Path,
      (stateRoot p ∨ statePrefixed p ∨ stateExcluded p ∨ stateOther p)
      ∧ (stateRoot p → ¬statePrefixed p ∧ ¬stateExcluded p ∧ ¬stateOther p)
      ∧ (statePrefixed p → ¬stateRoot p ∧ ¬stateExcluded p ∧ ¬stateOther p)
      ∧ (stateExcluded p → ¬stateRoot p ∧ ¬statePrefixed p ∧ ¬stateOther p))
    ∧ (∀ (p : Path) (s h : Option String) (st : Nat) (q : Path) (s2 h2 : Option String),
        (router p s h).resp = Response.redirect st q →
        (router q s2 h2).resp = Response.passThrough) := by
  constructor
  · intro p
    by_cases hr : p = rootPath
    · subst hr
      refine ⟨Or.inl rfl, fun _ => ⟨?_, ?_, ?_⟩, fun hpre => ?_, fun hex => ?_⟩
      · rw [statePrefixed]; decide
      · rw [stateExcluded]; decide
      · exact fun hother => hother.1 rfl
      · exact absurd hpre (by rw [statePrefixed]; decide)
      · exact absurd hex (by rw [stateExcluded]; decide)
    · by_cases hl : hasLocaleSeg p = true
      · have hm := hasLocaleSeg_matcherHit p hl
        refine ⟨Or.inr (Or.inl hl), fun hroot => absurd hroot hr, fun _ => ⟨hr, ?_, ?_⟩,
          fun hex => ?_⟩
        · rw [stateExcluded, hm]; simp
        · exact fun hother => by rw [hother.2.1] at hl; exact absurd hl (by simp)
        · rw [stateExcluded, hm] at hex; exact absurd hex (by simp)
      · have hl' : hasLocaleSeg p = false := by
          cases hlp : hasLocaleSeg p
          · rfl
          · exact absurd hlp hl
        by_cases hm : matcherHit p = true
        · refine ⟨Or.inr (Or.inr (Or.inr ⟨hr, hl', hm⟩)), fun hroot => absurd hroot hr,
            fun hpre => absurd hpre hl, fun hex => ?_⟩
          rw [stateExcluded, hm] at hex
          exact absurd hex (by simp)
        · have hm' : matcherHit p = false := by
            cases hmp : matcherHit p
            · rfl
            · exact absurd hmp hm
          refine ⟨Or.inr (Or.inr (Or.inl hm')), fun hroot => absurd hroot hr,
            fun hpre => absurd hpre hl, fun _ => ⟨hr, fun hpre => absurd hpre hl,
              fun hother => by rw [hother.2.2] at hm'; exact absurd hm' (by simp)⟩⟩
  · intro p s h st q s2 h2 hred
    rcases redirect_target_seg p s h st q hred with ⟨hseg, hq⟩
    exact router_seg_passThrough q s2 h2 hq hseg

theorem router_state_machine_witness :
    ((router ("/about".data) (some "pl") none).resp
        = Response.redirect 302 ("/pl/about".data)
      ∧ (router ("/pl/about".data) (some "pl") none).resp = Response.passThrough)
    ∧ (stateRoot ("/".data) ∨ statePrefixed ("/".data) ∨ stateExcluded ("/".data)
        ∨ stateOther ("/".data)) :=
  ⟨⟨by decide,
    router_state_machine.2 ("/about".data) (some "pl") none 302 ("/pl/about".data)
      (some "pl") none (by decide)⟩,
   (router_state_machine.1 ("/".data)).1⟩

/-- Claim C7: with supported = [en, de, pl] and default = en, a request to
the root path `/` carrying no stored locale preference and no language
header produces an HTTP 302 redirect to `/en` and sets the locale
preference to the resolved locale. -/
theorem root_request_redirects_to_default :
    router ("/".data) none none
      = ⟨Response.redirect 302 ("/en".data), some (resolve none none none)⟩
    ∧ resolve none none none = "en" := by
  constructor
  · decide
  · decide

/-- Claim C9: for every request whose path contains a dot character or
begins with `/_next` or `/_vercel`, and is not exactly `/` and does not
begin with a supported locale prefix, the middleware matcher excludes it:
the request passes through with its path unchanged (no redirect, no
rewrite) and the client-side locale preference is not modified. -/
theorem excluded_paths_pass_through (p : Path) (s h : Option String)
    (hexc : p.contains '.' = true
      ∨ (['/', '_', 'n', 'e', 'x', 't'].isPrefixOf p) = true
      ∨ (['/', '_', 'v', 'e', 'r', 'c', 'e', 'l'].isPrefixOf p) = true)
    (hroot : p ≠ rootPath) (hseg : hasLocaleSeg p = false) :
    router p s h = ⟨Response.passThrough, s⟩ := by
  have hbeq : (p == rootPath) = false := by simpa using hroot
  have hgm : generalMatch p = false := by
    unfold generalMatch
    split
    · next rest =>
      rcases hexc with hd | hd | hd
      · have hc : rest.contains '.' = true := by
          simpa using hd
        simp only [hc, Bool.not_true, Bool.and_false]
      · have hc : (['_', 'n', 'e', 'x', 't'].isPrefixOf rest) = true := by
          simpa [List.isPrefixOf] using hd
        simp only [hc, Bool.not_true, Bool.false_and, Bool.and_false]
      · have hc : (['_', 'v', 'e', 'r', 'c', 'e', 'l'].isPrefixOf rest) = true := by
          simpa [List.isPrefixOf] using hd
        simp only [hc, Bool.not_true, Bool.false_and, Bool.and_false]
    · rfl
  have hm : matcherHit p = false := by
    rw [matcherHit, hbeq, hseg, hgm]
    rfl
  rw [router, if_pos hm]

theorem excluded_paths_pass_through_witness :
    (("/favicon.ico".data).contains '.' = true
      ∧ "/favicon.ico".data ≠ rootPath
      ∧ hasLocaleSeg ("/favicon.ico".data) = false
      ∧ router ("/favicon.ico".data) (some "pl") (some "de")
          = ⟨Response.passThrough, some "pl"⟩)
    ∧ ((['/', '_', 'n', 'e', 'x', 't'].isPrefixOf ("/_next/static/x".data)) = true
      ∧ router ("/_next/static/x".data) none (some "de")
          = ⟨Response.passThrough, none⟩) :=
  ⟨⟨by decide, by decide, by decide,
    excluded_paths_pass_through ("/favicon.ico".data) (some "pl") (some "de")
      (Or.inl (by decide)) (by decide) (by decide)⟩,
   ⟨by decide,
    excluded_paths_pass_through ("/_next/static/x".data) none (some "de")
      (Or.inr (Or.inl (by decide))) (by decide) (by decide)⟩⟩

end LocaleSpec
